import Mathlib

/-
Verification of the speech-to-text bot (src/telegram-bot.py) against its
natural-language specification.  The Python source is shallowly embedded:
pure computations become Lean functions over Nat / String / List Char,
filesystem effects become explicit state passing over a list-of-paths
filesystem model, and exceptions become Except values.
-/

namespace SpeechBot

/-! ## Python string primitives used by the source -/

/-- `leadsWith pat s` models the check that `pat` occurs at the start of `s`
(character-list prefix test). -/
def leadsWith : List Char → List Char → Bool
  | [], _ => true
  | _ :: _, [] => false
  | a :: as, b :: bs => a == b && leadsWith as bs

theorem leadsWith_nil_left (s : List Char) : leadsWith [] s = true := by
  cases s <;> rfl

theorem leadsWith_length {pat s : List Char} (h : leadsWith pat s = true) :
    pat.length ≤ s.length := by
  induction pat generalizing s with
  | nil => simp
  | cons a as ih =>
    cases s with
    | nil => simp [leadsWith] at h
    | cons b bs =>
      simp only [leadsWith, Bool.and_eq_true] at h
      simpa using Nat.succ_le_succ (ih h.2)

/-- `hasSubstr s pat` models Python's `pat in s` substring test
(for a fixed pattern, scanning left to right). -/
def hasSubstr : List Char → List Char → Bool
  | s, pat =>
    if leadsWith pat s then true
    else
      match s with
      | [] => false
      | _ :: rest => hasSubstr rest pat

/-- `pyReplace s old new` models Python's `s.replace(old, new)` for a
non-empty pattern `old`: scan left to right, replacing non-overlapping
occurrences and resuming after each replacement. -/
def pyReplace (s old new : List Char) : List Char :=
  if h : old ≠ [] ∧ leadsWith old s = true then
    new ++ pyReplace (s.drop old.length) old new
  else
    match s with
    | [] => []
    | c :: rest => c :: pyReplace rest old new
termination_by s.length
decreasing_by
  · have h1 : 0 < old.length := List.length_pos.mpr h.1
    have h2 : old.length ≤ s.length := leadsWith_length h.2
    simp only [List.length_drop]
    omega
  · simp

/-- If the pattern does not occur in `s`, Python's replace returns `s`
unchanged. -/
theorem pyReplace_of_hasSubstr_eq_false {s old : List Char} (new : List Char)
    (h : hasSubstr s old = false) : pyReplace s old new = s := by
  induction s with
  | nil =>
    rw [pyReplace]
    rw [hasSubstr] at h
    by_cases hl : leadsWith old [] = true
    · simp [hl] at h
    · simp [hl]
  | cons c rest ih =>
    rw [hasSubstr] at h
    by_cases hl : leadsWith old (c :: rest) = true
    · simp [hl] at h
    · simp only [hl, if_false] at h
      rw [pyReplace]
      simp only [hl, and_false, ne_eq]
      simp [ih h]

/-- `pyStrip` models Python's `str.strip()`: drop whitespace from both
ends. -/
def pyStrip (s : String) : String :=
  ⟨((s.data.dropWhile Char.isWhitespace).reverse.dropWhile Char.isWhitespace).reverse⟩

/-- `dirname` models `os.path.dirname` for the POSIX paths the bot
constructs: everything before the final slash (empty if no slash). -/
def dirname (p : String) : String :=
  ⟨(((p.data.reverse.dropWhile (fun c => c ≠ '/')).drop 1)).reverse⟩

/-! ## Segmentation plan (AudioProcessor.split_audio_into_segments) -/

/-- Window count computed by the source:
`num_segments = math.ceil((duration_ms - overlap_ms) / (segment_duration_ms - overlap_ms))`,
expressed as exact ceiling division on Nat. -/
def numSegments (d s o : Nat) : Nat :=
  (d - o + (s - o) - 1) / (s - o)

/-- The list of `(start_time, end_time)` windows produced by the loop
`for i in range(num_segments): start = i*(seg-ov); end = min(start+seg, d)`. -/
def planWindows (d s o : Nat) : List (Nat × Nat) :=
  (List.range (numSegments d s o)).map
    (fun i => (i * (s - o), min (i * (s - o) + s) d))

theorem length_planWindows (d s o : Nat) :
    (planWindows d s o).length = numSegments d s o := by
  simp [planWindows]

theorem getElem?_planWindows {d s o i : Nat} (h : i < numSegments d s o) :
    (planWindows d s o)[i]? = some (i * (s - o), min (i * (s - o) + s) d) := by
  simp [planWindows, List.getElem?_map, List.getElem?_range h]

/-- Arithmetic facts about the ceiling window count, in the regime the
source enters the splitting branch: `o < s < d`. -/
theorem numSegments_bounds (d s o : Nat) (ho : o < s) (hd : s < d) :
    d - o ≤ numSegments d s o * (s - o)
    ∧ (numSegments d s o - 1) * (s - o) < d - o
    ∧ 0 < numSegments d s o := by
  have hk : 0 < s - o := by omega
  have ha : 1 ≤ d - o := by omega
  have h1 : numSegments d s o = (d - o - 1) / (s - o) + 1 := by
    unfold numSegments
    have he : d - o + (s - o) - 1 = (d - o - 1) + (s - o) := by omega
    rw [he, Nat.add_div_right _ hk]
  have h2 : (d - o - 1) / (s - o) * (s - o) + (d - o - 1) % (s - o) = d - o - 1 :=
    Nat.div_add_mod' _ _
  have h3 : (d - o - 1) % (s - o) < s - o := Nat.mod_lt _ hk
  have h4 : (d - o - 1) / (s - o) * (s - o) ≤ d - o - 1 := Nat.div_mul_le_self _ _
  rw [h1]
  refine ⟨?_, ?_, Nat.succ_pos _⟩
  · have he : ((d - o - 1) / (s - o) + 1) * (s - o)
        = (d - o - 1) / (s - o) * (s - o) + (s - o) := Nat.succ_mul _ _
    rw [he]
    omega
  · have he : ((d - o - 1) / (s - o) + 1 - 1) * (s - o)
        = (d - o - 1) / (s - o) * (s - o) := by simp
    rw [he]
    omega

theorem numSegments_mul_ge (d s o : Nat) (ho : o < s) (hd : s < d) :
    d - o ≤ numSegments d s o * (s - o) :=
  (numSegments_bounds d s o ho hd).1

theorem numSegments_pred_mul_lt (d s o : Nat) (ho : o < s) (hd : s < d) :
    (numSegments d s o - 1) * (s - o) < d - o :=
  (numSegments_bounds d s o ho hd).2.1

theorem numSegments_pos (d s o : Nat) (ho : o < s) (hd : s < d) :
    0 < numSegments d s o :=
  (numSegments_bounds d s o ho hd).2.2

/-- C1: for every duration strictly above the segment length (with
`0 ≤ overlap < segment length`, all in milliseconds) the plan has exactly
`ceil((d - o) / (s - o))` windows, window `i` being
`(i*(s-o), min (i*(s-o)+s) d)`; concretely, a 65000 ms input with 30 s
segments and 2 s overlap yields `[0,30000), [28000,58000), [56000,65000)`. -/
theorem plan_window_formula (d s o : Nat) (ho : o < s) (hd : s < d) :
    (planWindows d s o).length = (d - o + (s - o) - 1) / (s - o)
    ∧ (∀ i, i < (planWindows d s o).length →
        (planWindows d s o)[i]? = some (i * (s - o), min (i * (s - o) + s) d))
    ∧ planWindows 65000 30000 2000
        = [(0, 30000), (28000, 58000), (56000, 65000)] := by
  refine ⟨length_planWindows d s o, ?_, by decide⟩
  intro i hi
  rw [length_planWindows] at hi
  exact getElem?_planWindows hi

theorem plan_window_formula_witness :
    2000 < 30000 ∧ 30000 < 65000
    ∧ planWindows 65000 30000 2000
        = [(0, 30000), (28000, 58000), (56000, 65000)] :=
  ⟨by decide, by decide,
    (plan_window_formula 65000 30000 2000 (by decide) (by decide)).2.2⟩

/-- C2: in the splitting regime (`d > s`, `0 ≤ o < s`) the plan is
non-empty, consecutive windows advance by the stride `s - o`, the last
window ends exactly at `d`, and the windows cover `[0, d)` with no gap. -/
theorem plan_windows_cover (d s o : Nat) (ho : o < s) (hd : s < d) :
    planWindows d s o ≠ []
    ∧ (∀ i a b, (planWindows d s o)[i]? = some a →
        (planWindows d s o)[i + 1]? = some b → b.1 = a.1 + (s - o))
    ∧ (∀ w, (planWindows d s o).getLast? = some w → w.2 = d)
    ∧ (∀ t, t < d → ∃ w ∈ planWindows d s o, w.1 ≤ t ∧ t < w.2) := by
  have hpos := numSegments_pos d s o ho hd
  have hge := numSegments_mul_ge d s o ho hd
  have hlt := numSegments_pred_mul_lt d s o ho hd
  have hlast : d ≤ (numSegments d s o - 1) * (s - o) + s := by
    have he : (numSegments d s o - 1) * (s - o) + (s - o)
        = numSegments d s o * (s - o) := by
      obtain ⟨m, hm⟩ : ∃ m, numSegments d s o = m + 1 :=
        ⟨numSegments d s o - 1, by omega⟩
      rw [hm]
      simp [Nat.succ_mul]
    omega
  refine ⟨?_, ?_, ?_, ?_⟩
  · have hlen := length_planWindows d s o
    intro hnil
    rw [hnil] at hlen
    simp at hlen
    omega
  · intro i a b hai hbi
    obtain ⟨hia, -⟩ := List.getElem?_eq_some_iff.mp hai
    obtain ⟨hib, -⟩ := List.getElem?_eq_some_iff.mp hbi
    rw [length_planWindows] at hia hib
    rw [getElem?_planWindows hia] at hai
    rw [getElem?_planWindows hib] at hbi
    injection hai with hai
    injection hbi with hbi
    subst hai
    subst hbi
    simp [Nat.succ_mul]
  · intro w hw
    rw [List.getLast?_eq_getElem?, length_planWindows] at hw
    rw [getElem?_planWindows (by omega)] at hw
    injection hw with hw
    subst hw
    simp only
    exact min_eq_right hlast
  · intro t ht
    by_cases hcase : t / (s - o) ≤ numSegments d s o - 1
    · refine ⟨(t / (s - o) * (s - o), min (t / (s - o) * (s - o) + s) d),
        ?_, ?_, ?_⟩
      · simp only [planWindows, List.mem_map]
        exact ⟨t / (s - o), List.mem_range.mpr (by omega), rfl⟩
      · exact Nat.div_mul_le_self t (s - o)
      · have hmod := Nat.div_add_mod' t (s - o)
        have hmlt : t % (s - o) < s - o := Nat.mod_lt _ (by omega)
        have h1 : t < t / (s - o) * (s - o) + s := by omega
        exact lt_min h1 ht
    · refine ⟨((numSegments d s o - 1) * (s - o),
        min ((numSegments d s o - 1) * (s - o) + s) d), ?_, ?_, ?_⟩
      · simp only [planWindows, List.mem_map]
        exact ⟨numSegments d s o - 1, List.mem_range.mpr (by omega), rfl⟩
      · have h1 : numSegments d s o ≤ t / (s - o) := by omega
        have h2 : numSegments d s o * (s - o) ≤ t / (s - o) * (s - o) :=
          Nat.mul_le_mul_right _ h1
        have h3 : t / (s - o) * (s - o) ≤ t := Nat.div_mul_le_self _ _
        have h4 : (numSegments d s o - 1) * (s - o)
            ≤ numSegments d s o * (s - o) :=
          Nat.mul_le_mul_right _ (by omega)
        omega
      · exact lt_min (by omega) ht

theorem plan_windows_cover_witness :
    2000 < 30000 ∧ 30000 < 65000
    ∧ (planWindows 65000 30000 2000 ≠ []
      ∧ (∀ i a b, (planWindows 65000 30000 2000)[i]? = some a →
          (planWindows 65000 30000 2000)[i + 1]? = some b →
          b.1 = a.1 + (30000 - 2000))
      ∧ (∀ w, (planWindows 65000 30000 2000).getLast? = some w → w.2 = 65000)
      ∧ (∀ t, t < 65000 → ∃ w ∈ planWindows 65000 30000 2000,
          w.1 ≤ t ∧ t < w.2)) :=
  ⟨by decide, by decide,
    plan_windows_cover 65000 30000 2000 (by decide) (by decide)⟩

/-! ## Configuration (BotConfig.from_env) -/

/-- The configuration record built by `BotConfig.__init__`. -/
structure BotConfig where
  telegram_token : String
  model_size : String
  device : String
  compute_type : String
  segment_duration : Int
  segment_overlap : Int
  max_file_size_mb : Int
  max_text_length : Int
  beam_size : Int
  language : String
  vad_filter : Bool

/-- The raw environment variables `from_env` reads via `os.getenv`;
`none` models an unset variable.  Numeric variables stay strings here:
the `int(...)` calls happen inside `from_env` and can fail. -/
structure Env where
  telegram_token : Option String := none
  model_size : Option String := none
  device : Option String := none
  compute_type : Option String := none
  segment_duration : Option String := none
  segment_overlap : Option String := none
  max_file_size_mb : Option String := none
  max_text_length : Option String := none
  beam_size : Option String := none
  language : Option String := none
  vad_filter : Option String := none

/-- Decimal digits to a number; `none` on the empty string. -/
def parseDigits : List Char → Option Nat
  | [] => none
  | cs =>
    if cs.all Char.isDigit then
      some (cs.foldl (fun n c => n * 10 + (c.toNat - 48)) 0)
    else none

/-- Models Python `int(s)` on decimal input: optional surrounding
whitespace, optional sign, one or more digits; anything else raises
ValueError, modelled as `none`. -/
def pyInt (s : String) : Option Int :=
  let t := ((s.data.dropWhile Char.isWhitespace).reverse.dropWhile
    Char.isWhitespace).reverse
  match t with
  | '-' :: ds => (parseDigits ds).map (fun n => -(n : Int))
  | '+' :: ds => (parseDigits ds).map (fun n => (n : Int))
  | ds => (parseDigits ds).map (fun n => (n : Int))

/-- `BotConfig.from_env`: raises ValueError when TELEGRAM_TOKEN is unset
or empty (`if not token`); the `int(os.getenv(..., default))` calls can
also raise ValueError on non-numeric values (modelled by `pyInt = none`);
otherwise every field is filled verbatim with no further validation. -/
def from_env (env : Env) : Except String BotConfig :=
  match env.telegram_token with
  | none => .error "TELEGRAM_TOKEN не найден в переменных окружения"
  | some token =>
    if token = "" then .error "TELEGRAM_TOKEN не найден в переменных окружения"
    else
      match pyInt (env.segment_duration.getD "30"),
        pyInt (env.segment_overlap.getD "2"),
        pyInt (env.max_file_size_mb.getD "50"),
        pyInt (env.max_text_length.getD "4096"),
        pyInt (env.beam_size.getD "5") with
      | some sd, some so, some mfs, some mtl, some bs =>
        .ok {
          telegram_token := token
          model_size := env.model_size.getD "large-v3"
          device := env.device.getD "cpu"
          compute_type := env.compute_type.getD "int8"
          segment_duration := sd
          segment_overlap := so
          max_file_size_mb := mfs
          max_text_length := mtl
          beam_size := bs
          language := env.language.getD "ru"
          vad_filter := (env.vad_filter.getD "true").toLower = "true" }
      | _, _, _, _, _ =>
        .error "invalid literal for int() with base 10"

/-- An environment carrying a valid token plus explicit raw string
values for SEGMENT_DURATION and SEGMENT_OVERLAP. -/
def envWithSegments (sd so : String) : Env :=
  { telegram_token := some "token123", segment_duration := some sd,
    segment_overlap := some so }

/-- C9 counterexample: an environment with `SEGMENT_OVERLAP=20` and
`SEGMENT_DURATION=10` (overlap > duration) is accepted by `from_env`, so
startup is not rejected when the overlap invariant is violated. -/
theorem from_env_accepts_bad_overlap :
    ∃ cfg, from_env (envWithSegments "10" "20") = .ok cfg
      ∧ cfg.segment_duration < cfg.segment_overlap :=
  ⟨_, rfl, by decide⟩

/-- C9 amended: `from_env` performs no validation of the overlap
invariant: for every numeric pair of SEGMENT_DURATION / SEGMENT_OVERLAP
values — including `overlap ≥ duration` — construction succeeds (given a
valid token) and the configuration carries the values verbatim, so no
environment is rejected for violating `segment_overlap <
segment_duration`. -/
theorem from_env_no_overlap_check (sd so : String) (dur ov : Int)
    (hsd : pyInt sd = some dur) (hso : pyInt so = some ov) :
    ∃ cfg, from_env (envWithSegments sd so) = .ok cfg
      ∧ cfg.segment_duration = dur ∧ cfg.segment_overlap = ov := by
  unfold from_env envWithSegments
  dsimp only [Option.getD]
  rw [if_neg (show ¬("token123" : String) = "" by decide)]
  rw [hsd, hso]
  rw [show pyInt "50" = some 50 from rfl,
    show pyInt "4096" = some 4096 from rfl,
    show pyInt "5" = some 5 from rfl]
  exact ⟨_, rfl, rfl, rfl⟩

theorem from_env_no_overlap_check_witness :
    pyInt "10" = some 10 ∧ pyInt "20" = some 20
    ∧ ∃ cfg, from_env (envWithSegments "10" "20") = .ok cfg
      ∧ cfg.segment_duration = 10 ∧ cfg.segment_overlap = 20 :=
  ⟨by decide, by decide,
    from_env_no_overlap_check "10" "20" 10 20 (by decide) (by decide)⟩

/-! ## File-level splitting (threshold branch) -/

/-- `"segment_{:03d}".format(i+1) + ".wav"`: zero-padded, 1-based. -/
def pad3 (n : Nat) : String :=
  if n < 10 then "00" ++ toString n
  else if n < 100 then "0" ++ toString n
  else toString n

def segmentFileName (i : Nat) : String :=
  "segment_" ++ pad3 (i + 1) ++ ".wav"

/-- The `(start, end)` plan effectively followed by
`split_audio_into_segments`; `duration_ms ≤ segment_duration * 1000`
embeds the source's `duration_ms / 1000 <= self.config.segment_duration`
guard, and the parameters are the config values in seconds. -/
def split_plan (segment_duration segment_overlap duration_ms : Nat) :
    List (Nat × Nat) :=
  if duration_ms ≤ segment_duration * 1000 then [(0, duration_ms)]
  else planWindows duration_ms (segment_duration * 1000)
    (segment_overlap * 1000)

/-- The chunk-path list returned by `split_audio_into_segments`: the
original file alone below the threshold, else one
`segments/segment_NNN.wav` path per window. -/
def split_audio_into_segments (segment_duration segment_overlap : Nat)
    (audio_path : String) (duration_ms : Nat) : List String :=
  if duration_ms ≤ segment_duration * 1000 then [audio_path]
  else
    (List.range (numSegments duration_ms (segment_duration * 1000)
        (segment_overlap * 1000))).map
      (fun i => dirname audio_path ++ "/segments" ++ "/" ++ segmentFileName i)

/-- C5: when the duration is at most the configured segment length the
segmenter produces the single window `[0, d)` and returns the original
file as the sole chunk, creating no segment files. -/
theorem short_audio_single_window (s o : Nat) (path : String) (d : Nat)
    (h : d ≤ s * 1000) :
    split_plan s o d = [(0, d)]
    ∧ split_audio_into_segments s o path d = [path] := by
  constructor <;> simp [split_plan, split_audio_into_segments, h]

theorem short_audio_single_window_witness :
    10000 ≤ 30 * 1000
    ∧ (split_plan 30 2 10000 = [(0, 10000)]
      ∧ split_audio_into_segments 30 2 "/tmp/audio.ogg" 10000
          = ["/tmp/audio.ogg"]) :=
  ⟨by decide, short_audio_single_window 30 2 "/tmp/audio.ogg" 10000 (by decide)⟩

/-! ## Transcriber.transcribe -/

/-- What the speech backend reports for one chunk:
successful recognition, `sr.UnknownValueError` (no speech understood),
or `sr.RequestError` (service/communication failure). -/
inductive RecognizeOutcome where
  | recognized (text : String)
  | unknownValue
  | requestError (msg : String)

/-- The `text` variable after the inner try/except of `transcribe`:
backend failures are caught and turned into fixed Russian messages. -/
def recognizeText : RecognizeOutcome → String
  | .recognized t => t
  | .unknownValue => "Не удалось распознать речь. Попробуйте говорить четче."
  | .requestError _ => "Ошибка подключения к сервису распознавания речи."

/-- Insert a path into the filesystem set (export creates or
overwrites the file). -/
def touchFile (p : String) (fs : List String) : List String :=
  if p ∈ fs then fs else p :: fs

/-- `Transcriber.transcribe` over an explicit filesystem (the list of
existing file paths).  `decodeOk = false` models `AudioSegment.from_file`
raising, which the outer except turns into `RuntimeError`.  Otherwise:
`wav_path = file_path.replace('.ogg', '.wav')`, the WAV is exported to
`wav_path`, recognition runs (never raising: both backend error classes
are caught and mapped to fixed strings), and `wav_path` is removed if it
exists.  Returns the result and the final filesystem. -/
def transcribe (decodeOk : Bool) (outcome : RecognizeOutcome)
    (file_path : String) (fs : List String) :
    Except String String × List String :=
  if decodeOk then
    let wav_path : String := ⟨pyReplace file_path.data ".ogg".data ".wav".data⟩
    let fs1 := touchFile wav_path fs
    let text := recognizeText outcome
    let fs2 := if wav_path ∈ fs1 then fs1.erase wav_path else fs1
    (.ok text, fs2)
  else
    (.error "Ошибка распознавания аудио", fs)

/-- C3 counterexample: on a no-speech (`UnknownValueError`) outcome,
`transcribe` does not return the empty string — it returns a fixed
non-empty apology message, which the caller then appends to the
transcript instead of skipping the chunk. -/
theorem transcribe_unknown_not_empty :
    (transcribe true .unknownValue "/tmp/a.ogg" ["/tmp/a.ogg"]).1
      = .ok "Не удалось распознать речь. Попробуйте говорить четче."
    ∧ "Не удалось распознать речь. Попробуйте говорить четче." ≠ ""
    ∧ ¬(transcribe true .unknownValue "/tmp/a.ogg" ["/tmp/a.ogg"]).1
        = .ok "" := by
  refine ⟨rfl, by decide, fun h => absurd (Except.ok.inj h) (by decide)⟩

/-- C3 amended: on a no-speech outcome `transcribe` does not raise and
returns the fixed placeholder
"Не удалось распознать речь. Попробуйте говорить четче."; being
non-empty and non-blank, the caller appends it rather than treating the
chunk as skippable. -/
theorem transcribe_unknown_fixed_message (file_path : String)
    (fs : List String) :
    (transcribe true .unknownValue file_path fs).1
      = .ok "Не удалось распознать речь. Попробуйте говорить четче."
    ∧ pyStrip "Не удалось распознать речь. Попробуйте говорить четче."
        ≠ "" := by
  refine ⟨?_, by decide⟩
  rw [transcribe]
  simp [recognizeText]

/-- C7 counterexample: on a backend communication failure
(`sr.RequestError`) `transcribe` does not raise any typed failure — it
returns the fixed text
"Ошибка подключения к сервису распознавания речи." as a successful
result (no `TranscriptionBackendError` exists anywhere in the source). -/
theorem transcribe_request_error_returns_text :
    (transcribe true (.requestError "service down") "/tmp/b.ogg"
        ["/tmp/b.ogg"]).1
      = .ok "Ошибка подключения к сервису распознавания речи."
    ∧ ∀ e, ¬(transcribe true (.requestError "service down") "/tmp/b.ogg"
        ["/tmp/b.ogg"]).1 = .error e := by
  refine ⟨rfl, ?_⟩
  intro e he
  simp [transcribe, recognizeText] at he

/-- C7 amended: on a backend communication failure `transcribe` catches
the exception and returns the fixed message
"Ошибка подключения к сервису распознавания речи." as ordinary text; the
caller cannot distinguish it from a transcript and appends it instead of
skipping the chunk. -/
theorem transcribe_request_error_fixed_message (msg file_path : String)
    (fs : List String) :
    (transcribe true (.requestError msg) file_path fs).1
      = .ok "Ошибка подключения к сервису распознавания речи." := by
  rw [transcribe]
  simp [recognizeText]

/-- C10: for an input path not containing ".ogg" (every
`segment_NNN.wav` chunk), `replace('.ogg', '.wav')` is the identity, so
the temporary WAV path is the input path itself: the export overwrites
the chunk and the final `os.remove(wav_path)` deletes the chunk file
before `transcribe` returns, while still returning the recognized
text. -/
theorem transcribe_deletes_non_ogg_input (file_path : String)
    (outcome : RecognizeOutcome) (fs : List String)
    (hsub : hasSubstr file_path.data ".ogg".data = false)
    (hnd : fs.Nodup) :
    (⟨pyReplace file_path.data ".ogg".data ".wav".data⟩ : String) = file_path
    ∧ file_path ∉ (transcribe true outcome file_path fs).2
    ∧ (transcribe true outcome file_path fs).1 = .ok (recognizeText outcome)
    := by
  have hid : pyReplace file_path.data ".ogg".data ".wav".data
      = file_path.data := pyReplace_of_hasSubstr_eq_false _ hsub
  have hpath : (⟨pyReplace file_path.data ".ogg".data ".wav".data⟩ : String)
      = file_path := by
    rw [hid]
  refine ⟨hpath, ?_, ?_⟩
  · rw [transcribe]
    simp only [if_pos rfl, hpath]
    by_cases hmem : file_path ∈ fs
    · simp only [touchFile, if_pos hmem, hmem, if_true]
      exact hnd.not_mem_erase
    · simp only [touchFile, if_neg hmem]
      simp [List.erase_cons_head, hmem]
  · rw [transcribe]
    simp

theorem transcribe_deletes_non_ogg_input_witness :
    hasSubstr "/tmp/segments/segment_001.wav".data ".ogg".data = false
    ∧ ["/tmp/segments/segment_001.wav"].Nodup
    ∧ ((⟨pyReplace "/tmp/segments/segment_001.wav".data ".ogg".data
          ".wav".data⟩ : String) = "/tmp/segments/segment_001.wav"
      ∧ "/tmp/segments/segment_001.wav"
          ∉ (transcribe true (.recognized "привет")
              "/tmp/segments/segment_001.wav"
              ["/tmp/segments/segment_001.wav"]).2
      ∧ (transcribe true (.recognized "привет")
          "/tmp/segments/segment_001.wav"
          ["/tmp/segments/segment_001.wav"]).1
          = .ok (recognizeText (.recognized "привет"))) :=
  ⟨by decide, by decide,
    transcribe_deletes_non_ogg_input "/tmp/segments/segment_001.wav"
      (.recognized "привет") ["/tmp/segments/segment_001.wav"]
      (by decide) (by decide)⟩

/-! ## Per-chunk loop of handle_audio (the transcription pipeline) -/

/-- What one iteration of the segment loop observes:
`transcribe` either raised (any exception) or returned a text. -/
inductive SegOutcome where
  | raised (msg : String)
  | text (t : String)

/-- The `all_texts` accumulator: a raised chunk is logged and skipped
(`continue`), a returned text is appended as `segment_text.strip()`
when that strip is non-empty. -/
def collect_texts : List SegOutcome → List String
  | [] => []
  | .raised _ :: rest => collect_texts rest
  | .text t :: rest =>
    if pyStrip t = "" then collect_texts rest
    else pyStrip t :: collect_texts rest

/-- `text = ' '.join(all_texts) if all_texts else ""`. -/
def final_transcript (outs : List SegOutcome) : String :=
  let all_texts := collect_texts outs
  if all_texts = [] then "" else String.intercalate " " all_texts

theorem collect_texts_append (xs ys : List SegOutcome) :
    collect_texts (xs ++ ys) = collect_texts xs ++ collect_texts ys := by
  induction xs with
  | nil => rfl
  | cons x rest ih =>
    cases x with
    | raised m => simpa [collect_texts] using ih
    | text t =>
      by_cases h : pyStrip t = "" <;> simp [collect_texts, h, ih]

/-- C4: a chunk whose transcription raised contributes nothing and does
not stop the loop — dropping it from the outcome list leaves the final
transcript unchanged; the transcript is exactly the stripped non-empty
texts of the successful chunks, joined by single spaces in original
chunk order; concretely, when the second of three chunks raises, the
transcript is chunk 1's text then chunk 3's text. -/
theorem final_transcript_skips_raised :
    (∀ (pre post : List SegOutcome) (msg : String),
      final_transcript (pre ++ .raised msg :: post)
        = final_transcript (pre ++ post))
    ∧ (∀ outs : List SegOutcome,
        final_transcript outs
          = String.intercalate " " (outs.filterMap (fun so =>
              match so with
              | .raised _ => none
              | .text t => if pyStrip t = "" then none else some (pyStrip t))))
    ∧ final_transcript [.text "привет мир", .raised "RequestError",
        .text "как дела"] = "привет мир как дела" := by
  have hfm : ∀ outs : List SegOutcome,
      collect_texts outs = outs.filterMap (fun so =>
        match so with
        | .raised _ => none
        | .text t => if pyStrip t = "" then none else some (pyStrip t)) := by
    intro outs
    induction outs with
    | nil => rfl
    | cons x rest ih =>
      cases x with
      | raised m => simpa [collect_texts] using ih
      | text t =>
        by_cases h : pyStrip t = "" <;> simp [collect_texts, h, ih]
  refine ⟨?_, ?_, by decide⟩
  · intro pre post msg
    unfold final_transcript
    rw [collect_texts_append, collect_texts_append]
    rfl
  · intro outs
    unfold final_transcript
    rw [hfm]
    by_cases h : outs.filterMap (fun so =>
        match so with
        | .raised _ => none
        | .text t => if pyStrip t = "" then none else some (pyStrip t)) = []
    · rw [h]
      simp [String.intercalate]
    · rw [if_neg h]

/-! ## Result delivery (TelegramBot._send_result) -/

/-- What `_send_result` does with the final text: an inline reply
message, or a `.txt` document upload. -/
inductive DeliveryPlan where
  | inlineMessage (reply : String)
  | fileAttachment (filename : String) (content : String) (caption : String)

/-- `_send_result`: inline iff `len(text) <= max_text_length`, else a
document named `"Транскрипция_" + timestamp + ".txt"` containing the
text. -/
def send_result (max_text_length : Int) (text : String)
    (timestamp : String) : DeliveryPlan :=
  if (text.length : Int) ≤ max_text_length then
    .inlineMessage ("📝 Результат:\n\n" ++ text)
  else
    .fileAttachment ("Транскрипция_" ++ timestamp ++ ".txt") text
      "📁 Текст слишком длинный"

/-- C6: the inline/attachment decision is the strict threshold
`len(text) ≤ max_text_length`: at or below the limit the text goes
inline in the reply; above it (limit + 1 or more characters) the text is
delivered as an attachment whose filename embeds the given timestamp and
ends in the fixed extension ".txt". -/
theorem send_result_threshold (max_text_length : Int) (text ts : String) :
    ((text.length : Int) ≤ max_text_length →
      send_result max_text_length text ts
        = .inlineMessage ("📝 Результат:\n\n" ++ text))
    ∧ (max_text_length + 1 ≤ (text.length : Int) →
      send_result max_text_length text ts
        = .fileAttachment ("Транскрипция_" ++ ts ++ ".txt") text
            "📁 Текст слишком длинный") := by
  constructor
  · intro h
    rw [send_result, if_pos h]
  · intro h
    rw [send_result, if_neg (by omega)]

theorem send_result_threshold_witness :
    (("ab".length : Int) ≤ 2
      ∧ send_result 2 "ab" "20240101-120000"
          = .inlineMessage ("📝 Результат:\n\n" ++ "ab"))
    ∧ ((2 : Int) + 1 ≤ ("abc".length : Int)
      ∧ send_result 2 "abc" "20240101-120000"
          = .fileAttachment ("Транскрипция_" ++ "20240101-120000" ++ ".txt")
              "abc" "📁 Текст слишком длинный") :=
  ⟨⟨by decide, (send_result_threshold 2 "ab" "20240101-120000").1 (by decide)⟩,
    ⟨by decide, (send_result_threshold 2 "abc" "20240101-120000").2 (by decide)⟩⟩

/-! ## Temporary-file cleanup (cleanup_segments, _cleanup_files) -/

/-- Filesystem state: the existing file paths and directory paths. -/
structure FS where
  files : List String
  dirs : List String

/-- `p` lies strictly under directory `dir` (its path starts with
`dir ++ "/"`). -/
def underDir (dir p : String) : Bool :=
  leadsWith (dir.data ++ ['/']) p.data

/-- `os.remove` on an existing file. -/
def removeFile (p : String) (fs : FS) : FS :=
  { fs with files := fs.files.erase p }

/-- A removal-failure oracle: `fail p = true` means `os.remove(p)`
raises (e.g. a permission error). `noFail` is the normal run. -/
def noFail : String → Bool := fun _ => false

/-- `os.rmdir`: raises (carrying the unchanged state) when the directory
is non-empty, else drops it. -/
def rmdirE (d : String) (fs : FS) : Except FS FS :=
  if fs.files.any (fun p => underDir d p) || fs.dirs.any (fun p => underDir d p)
  then .error fs
  else .ok { fs with dirs := fs.dirs.erase d }

/-- `shutil.rmtree`: removes the directory and everything under it. -/
def rmtree (d : String) (fs : FS) : FS :=
  { files := fs.files.filter (fun p => !underDir d p),
    dirs := (fs.dirs.filter (fun p => !underDir d p)).erase d }

/-- The loop of `cleanup_segments`: for each path, if it exists remove
it (an already-missing chunk is silently skipped); a raising removal
aborts the loop with the state reached so far. -/
def cleanupSegLoop (fail : String → Bool) : List String → FS → Except FS FS
  | [], fs => .ok fs
  | p :: rest, fs =>
    if p ∈ fs.files then
      if fail p then .error fs
      else cleanupSegLoop fail rest (removeFile p fs)
    else cleanupSegLoop fail rest fs

/-- Body of `AudioProcessor.cleanup_segments` before its `except`: the
removal loop, then `os.rmdir(os.path.dirname(segment_paths[0]))` guarded
by an existence check. -/
def cleanup_segmentsE (fail : String → Bool) (segment_paths : List String)
    (fs : FS) : Except FS FS :=
  match cleanupSegLoop fail segment_paths fs with
  | .error f => .error f
  | .ok fs1 =>
    match segment_paths with
    | [] => .ok fs1
    | p0 :: _ =>
      if dirname p0 ∈ fs1.dirs then rmdirE (dirname p0) fs1 else .ok fs1

/-- The `except` wrapper: a raise is logged and swallowed, leaving the
filesystem as it was at the raise point. -/
def catchFS : Except FS FS → FS
  | .ok f => f
  | .error f => f

/-- `AudioProcessor.cleanup_segments` (its except never propagates). -/
def cleanup_segments (fail : String → Bool) (segment_paths : List String)
    (fs : FS) : FS :=
  catchFS (cleanup_segmentsE fail segment_paths fs)

/-- Body of `TelegramBot._cleanup_files` before its `except`: remove the
main audio file if present, run `cleanup_segments` when the chunk list is
non-empty, then `shutil.rmtree(temp_dir)` if the directory exists. -/
def cleanup_filesE (fail : String → Bool) (audio_path : Option String)
    (segment_paths : List String) (temp_dir : Option String) (fs : FS) :
    Except FS FS :=
  let step1 : Except FS FS :=
    match audio_path with
    | some ap =>
      if ap ∈ fs.files then
        if fail ap then .error fs else .ok (removeFile ap fs)
      else .ok fs
    | none => .ok fs
  match step1 with
  | .error f => .error f
  | .ok fs1 =>
    let fs2 := if segment_paths.isEmpty then fs1
      else cleanup_segments fail segment_paths fs1
    match temp_dir with
    | some td => .ok (if td ∈ fs2.dirs then rmtree td fs2 else fs2)
    | none => .ok fs2

/-- `TelegramBot._cleanup_files` (its except never propagates). -/
def cleanup_files (fail : String → Bool) (audio_path : Option String)
    (segment_paths : List String) (temp_dir : Option String) (fs : FS) :
    FS :=
  catchFS (cleanup_filesE fail audio_path segment_paths temp_dir fs)

theorem cleanupSegLoop_dirs (fail : String → Bool) :
    ∀ (segs : List String) (fs : FS),
      (catchFS (cleanupSegLoop fail segs fs)).dirs = fs.dirs := by
  intro segs
  induction segs with
  | nil => intro fs; rfl
  | cons p rest ih =>
    intro fs
    rw [cleanupSegLoop]
    by_cases hmem : p ∈ fs.files
    · rw [if_pos hmem]
      by_cases hf : fail p
      · rw [if_pos hf]; rfl
      · rw [if_neg hf]
        exact ih (removeFile p fs)
    · rw [if_neg hmem]
      exact ih fs

theorem cleanupSegLoop_files_sublist (fail : String → Bool) :
    ∀ (segs : List String) (fs : FS),
      (catchFS (cleanupSegLoop fail segs fs)).files.Sublist fs.files := by
  intro segs
  induction segs with
  | nil => intro fs; exact List.Sublist.refl _
  | cons p rest ih =>
    intro fs
    rw [cleanupSegLoop]
    by_cases hmem : p ∈ fs.files
    · rw [if_pos hmem]
      by_cases hf : fail p
      · rw [if_pos hf]; exact List.Sublist.refl _
      · rw [if_neg hf]
        exact (ih (removeFile p fs)).trans (List.erase_sublist p fs.files)
    · rw [if_neg hmem]
      exact ih fs

theorem cleanupSegLoop_noFail_ok :
    ∀ (segs : List String) (fs : FS),
      ∃ g, cleanupSegLoop noFail segs fs = .ok g := by
  intro segs
  induction segs with
  | nil => intro fs; exact ⟨fs, rfl⟩
  | cons p rest ih =>
    intro fs
    rw [cleanupSegLoop]
    by_cases hmem : p ∈ fs.files
    · rw [if_pos hmem]
      rw [if_neg (by simp [noFail])]
      exact ih (removeFile p fs)
    · rw [if_neg hmem]
      exact ih fs

theorem cleanupSegLoop_noFail_removes :
    ∀ (segs : List String) (g : FS), g.files.Nodup →
      ∀ p ∈ segs, p ∉ (catchFS (cleanupSegLoop noFail segs g)).files := by
  intro segs
  induction segs with
  | nil => intro g hnd p hp; simp at hp
  | cons q rest ih =>
    intro g hnd p hp
    rw [cleanupSegLoop]
    by_cases hmem : q ∈ g.files
    · rw [if_pos hmem, if_neg (show ¬noFail q = true by simp [noFail])]
      rcases List.mem_cons.mp hp with rfl | hp2
      · intro hcontra
        have hsub := cleanupSegLoop_files_sublist noFail rest (removeFile p g)
        exact hnd.not_mem_erase (hsub.subset hcontra)
      · exact ih (removeFile q g) (hnd.erase q) p hp2
    · rw [if_neg hmem]
      rcases List.mem_cons.mp hp with rfl | hp2
      · intro hcontra
        have hsub := cleanupSegLoop_files_sublist noFail rest g
        exact hmem (hsub.subset hcontra)
      · exact ih g hnd p hp2

theorem cleanup_segments_files_eq (fail : String → Bool)
    (segs : List String) (g : FS) :
    (cleanup_segments fail segs g).files
      = (catchFS (cleanupSegLoop fail segs g)).files := by
  unfold cleanup_segments cleanup_segmentsE
  cases hloop : cleanupSegLoop fail segs g with
  | error f => rfl
  | ok f1 =>
    cases segs with
    | nil => rfl
    | cons p0 rest =>
      dsimp only
      by_cases hmem : dirname p0 ∈ f1.dirs
      · rw [if_pos hmem]
        unfold rmdirE
        by_cases hbusy : f1.files.any (fun p => underDir (dirname p0) p)
            || f1.dirs.any (fun p => underDir (dirname p0) p)
        · rw [if_pos hbusy]; rfl
        · rw [if_neg hbusy]; rfl
      · rw [if_neg hmem]

theorem cleanup_segments_noFail_removes (segs : List String) (g : FS)
    (hnd : g.files.Nodup) :
    ∀ p ∈ segs, p ∉ (cleanup_segments noFail segs g).files := by
  intro p hp
  rw [cleanup_segments_files_eq]
  exact cleanupSegLoop_noFail_removes segs g hnd p hp

/-- After `cleanup_segments`, either the target directory `td` is still
present, or it was removed by the guarded `os.rmdir` — which can only
succeed on an empty directory, so in that case nothing at all remains
under `td`. -/
theorem cleanup_segments_td (fail : String → Bool) (segs : List String)
    (g : FS) (td : String) (htd : td ∈ g.dirs) (hnd : g.dirs.Nodup) :
    td ∈ (cleanup_segments fail segs g).dirs
    ∨ ((∀ p ∈ (cleanup_segments fail segs g).files, underDir td p = false)
      ∧ (∀ q ∈ (cleanup_segments fail segs g).dirs, underDir td q = false)
      ∧ td ∉ (cleanup_segments fail segs g).dirs) := by
  have hl := cleanupSegLoop_dirs fail segs g
  unfold cleanup_segments cleanup_segmentsE
  cases hloop : cleanupSegLoop fail segs g with
  | error f =>
    rw [hloop] at hl
    left
    rw [show (catchFS (Except.error f)).dirs = f.dirs from rfl] at hl
    show td ∈ f.dirs
    rw [hl]
    exact htd
  | ok f1 =>
    rw [hloop] at hl
    rw [show (catchFS (Except.ok f1)).dirs = f1.dirs from rfl] at hl
    cases segs with
    | nil =>
      left
      show td ∈ f1.dirs
      rw [hl]
      exact htd
    | cons p0 rest =>
      dsimp only
      by_cases hmem : dirname p0 ∈ f1.dirs
      · rw [if_pos hmem]
        unfold rmdirE
        by_cases hbusy : f1.files.any (fun p => underDir (dirname p0) p)
            || f1.dirs.any (fun p => underDir (dirname p0) p)
        · rw [if_pos hbusy]
          left
          show td ∈ f1.dirs
          rw [hl]
          exact htd
        · rw [if_neg hbusy]
          rw [Bool.or_eq_true, not_or] at hbusy
          obtain ⟨hbf, hbd⟩ := hbusy
          by_cases heq : dirname p0 = td
          · right
            subst heq
            refine ⟨?_, ?_, ?_⟩
            · intro p hp
              by_contra hpc
              rw [Bool.not_eq_false] at hpc
              exact hbf (List.any_eq_true.mpr ⟨p, hp, hpc⟩)
            · intro q hq
              have hq2 := List.mem_of_mem_erase hq
              by_contra hqc
              rw [Bool.not_eq_false] at hqc
              exact hbd (List.any_eq_true.mpr ⟨q, hq2, hqc⟩)
            · have hnd1 : f1.dirs.Nodup := by rw [hl]; exact hnd
              exact hnd1.not_mem_erase
          · left
            show td ∈ f1.dirs.erase (dirname p0)
            rw [List.mem_erase_of_ne (Ne.symm heq), hl]
            exact htd
      · rw [if_neg hmem]
        left
        show td ∈ f1.dirs
        rw [hl]
        exact htd

theorem cleanup_segments_dirs (fail : String → Bool) (segs : List String)
    (fs : FS) :
    (cleanup_segments fail segs fs).dirs = fs.dirs
    ∨ (∃ p0, segs.head? = some p0
        ∧ (cleanup_segments fail segs fs).dirs = fs.dirs.erase (dirname p0)) := by
  unfold cleanup_segments cleanup_segmentsE
  cases hloop : cleanupSegLoop fail segs fs with
  | error f =>
    left
    have h := cleanupSegLoop_dirs fail segs fs
    rw [hloop] at h
    exact h
  | ok fs1 =>
    have h1 : fs1.dirs = fs.dirs := by
      have h := cleanupSegLoop_dirs fail segs fs
      rw [hloop] at h
      exact h
    cases segs with
    | nil => left; exact h1
    | cons p0 rest =>
      dsimp only
      by_cases hmem : dirname p0 ∈ fs1.dirs
      · rw [if_pos hmem]
        unfold rmdirE
        by_cases hbusy : fs1.files.any (fun p => underDir (dirname p0) p)
            || fs1.dirs.any (fun p => underDir (dirname p0) p)
        · rw [if_pos hbusy]
          left; exact h1
        · rw [if_neg hbusy]
          right
          exact ⟨p0, rfl, by simp [catchFS, h1]⟩
      · rw [if_neg hmem]
        left; exact h1

theorem cleanup_segments_files_sublist (fail : String → Bool)
    (segs : List String) (fs : FS) :
    (cleanup_segments fail segs fs).files.Sublist fs.files := by
  unfold cleanup_segments cleanup_segmentsE
  have hsub := cleanupSegLoop_files_sublist fail segs fs
  cases hloop : cleanupSegLoop fail segs fs with
  | error f =>
    rw [hloop] at hsub
    exact hsub
  | ok fs1 =>
    rw [hloop] at hsub
    cases segs with
    | nil => exact hsub
    | cons p0 rest =>
      dsimp only
      by_cases hmem : dirname p0 ∈ fs1.dirs
      · rw [if_pos hmem]
        unfold rmdirE
        by_cases hbusy : fs1.files.any (fun p => underDir (dirname p0) p)
            || fs1.dirs.any (fun p => underDir (dirname p0) p)
        · rw [if_pos hbusy]
          exact hsub
        · rw [if_neg hbusy]
          exact hsub
      · rw [if_neg hmem]
        exact hsub

theorem cleanup_files_files_sublist (fail : String → Bool)
    (audio_path : Option String) (segs : List String)
    (temp_dir : Option String) (fs : FS) :
    (cleanup_files fail audio_path segs temp_dir fs).files.Sublist fs.files := by
  unfold cleanup_files cleanup_filesE
  have hstep : ∀ fs1 : FS, fs1.files.Sublist fs.files →
      (catchFS (match temp_dir with
        | some td => Except.ok (if td ∈ (if segs.isEmpty then fs1
            else cleanup_segments fail segs fs1).dirs
          then rmtree td (if segs.isEmpty then fs1
            else cleanup_segments fail segs fs1)
          else (if segs.isEmpty then fs1
            else cleanup_segments fail segs fs1))
        | none => Except.ok (if segs.isEmpty then fs1
            else cleanup_segments fail segs fs1))).files.Sublist fs.files := by
    intro fs1 h1
    have h2 : (if segs.isEmpty then fs1
        else cleanup_segments fail segs fs1).files.Sublist fs.files := by
      by_cases hse : segs.isEmpty
      · rw [if_pos hse]; exact h1
      · rw [if_neg hse]
        exact (cleanup_segments_files_sublist fail segs fs1).trans h1
    cases temp_dir with
    | none => exact h2
    | some td =>
      dsimp only
      by_cases htd : td ∈ (if segs.isEmpty then fs1
          else cleanup_segments fail segs fs1).dirs
      · rw [if_pos htd]
        exact (List.filter_sublist _).trans h2
      · rw [if_neg htd]
        exact h2
  cases audio_path with
  | none => exact hstep fs (List.Sublist.refl _)
  | some ap =>
    dsimp only
    by_cases hmem : ap ∈ fs.files
    · rw [if_pos hmem]
      by_cases hf : fail ap
      · rw [if_pos hf]
        exact List.Sublist.refl _
      · rw [if_neg hf]
        exact hstep (removeFile ap fs) (List.erase_sublist ap fs.files)
    · rw [if_neg hmem]
      exact hstep fs (List.Sublist.refl _)

/-- The filesystem after the audio-removal step of `_cleanup_files`
under `noFail` (the main audio file, when present, is removed). -/
def audioStep (audio_path : Option String) (fs : FS) : FS :=
  match audio_path with
  | some ap => if ap ∈ fs.files then removeFile ap fs else fs
  | none => fs

/-- The filesystem after the audio-removal step plus `cleanup_segments`
(skipped on an empty chunk list, as in the source). -/
def segStep (audio_path : Option String) (segs : List String) (fs : FS) :
    FS :=
  if segs.isEmpty then audioStep audio_path fs
  else cleanup_segments noFail segs (audioStep audio_path fs)

theorem cleanup_files_noFail_eq (audio_path : Option String) (td : String)
    (segs : List String) (fs : FS) :
    cleanup_files noFail audio_path segs (some td) fs
      = if td ∈ (segStep audio_path segs fs).dirs
        then rmtree td (segStep audio_path segs fs)
        else segStep audio_path segs fs := by
  unfold cleanup_files cleanup_filesE segStep audioStep
  cases audio_path with
  | none => rfl
  | some ap =>
    dsimp only
    by_cases hmem : ap ∈ fs.files
    · rw [if_pos hmem, if_neg (show ¬noFail ap = true by simp [noFail])]
      simp [catchFS, hmem]
    · rw [if_neg hmem]
      simp [catchFS, hmem]

/-- C8: for every `_cleanup_files` invocation shaped like a pipeline
run — any starting filesystem with distinct paths, any optional main
audio file (`none` models a request aborted before the download), any
chunk list (including the single-chunk case `segment_paths =
[audio_path]` of a short-audio run, where `dirname(audio_path)` is the
temp dir itself), and the scratch directory `td` — a normal run
(`noFail`: removals succeed) leaves no chunk file, no main audio file,
and no scratch directory: `td` itself is gone and, when `td` existed, so
is every directory under it (the `segments` dir included); the removal
loop tolerates chunks that are already missing (it never raises under
`noFail`, whatever files exist); and for an arbitrary removal-failure
oracle the cleanup still returns (failures never propagate to the
caller) and only ever removes files. -/
theorem cleanup_leaves_no_files (fs : FS) (audio_path : Option String)
    (td : String) (segs : List String)
    (hnd : fs.dirs.Nodup) (hnf : fs.files.Nodup) :
    (∀ p ∈ segs,
      p ∉ (cleanup_files noFail audio_path segs (some td) fs).files)
    ∧ (∀ a, audio_path = some a →
        a ∉ (cleanup_files noFail audio_path segs (some td) fs).files)
    ∧ td ∉ (cleanup_files noFail audio_path segs (some td) fs).dirs
    ∧ (∀ d, underDir td d = true → td ∈ fs.dirs →
        d ∉ (cleanup_files noFail audio_path segs (some td) fs).dirs)
    ∧ (∀ g : FS, ∃ g1, cleanupSegLoop noFail segs g = .ok g1)
    ∧ (∀ fail,
        ((cleanup_files fail audio_path segs (some td) fs).files).Sublist
          fs.files) := by
  have hres := cleanup_files_noFail_eq audio_path td segs fs
  have h1dirs : (audioStep audio_path fs).dirs = fs.dirs := by
    unfold audioStep
    cases audio_path with
    | none => rfl
    | some ap =>
      dsimp only
      by_cases hmem : ap ∈ fs.files
      · rw [if_pos hmem]; rfl
      · rw [if_neg hmem]
  have h1nd : (audioStep audio_path fs).files.Nodup := by
    unfold audioStep
    cases audio_path with
    | none => exact hnf
    | some ap =>
      dsimp only
      by_cases hmem : ap ∈ fs.files
      · rw [if_pos hmem]; exact hnf.erase ap
      · rw [if_neg hmem]; exact hnf
  have h1audio : ∀ a, audio_path = some a →
      a ∉ (audioStep audio_path fs).files := by
    intro a ha
    subst ha
    unfold audioStep
    dsimp only
    by_cases hmem : a ∈ fs.files
    · rw [if_pos hmem]; exact hnf.not_mem_erase
    · rw [if_neg hmem]; exact hmem
  have h2segs : ∀ p ∈ segs, p ∉ (segStep audio_path segs fs).files := by
    unfold segStep
    by_cases hse : segs.isEmpty
    · intro p hp
      rw [List.isEmpty_iff] at hse
      subst hse
      simp at hp
    · rw [if_neg hse]
      exact cleanup_segments_noFail_removes segs (audioStep audio_path fs)
        h1nd
  have h2sub : ∀ x ∈ (segStep audio_path segs fs).files,
      x ∈ (audioStep audio_path fs).files := by
    unfold segStep
    by_cases hse : segs.isEmpty
    · rw [if_pos hse]
      exact fun x hx => hx
    · rw [if_neg hse]
      exact fun x hx =>
        (cleanup_segments_files_sublist noFail segs _).subset hx
  have h2dirs : (segStep audio_path segs fs).dirs = fs.dirs
      ∨ ∃ q, (segStep audio_path segs fs).dirs = fs.dirs.erase q := by
    unfold segStep
    by_cases hse : segs.isEmpty
    · rw [if_pos hse, h1dirs]
      exact Or.inl rfl
    · rw [if_neg hse]
      rcases cleanup_segments_dirs noFail segs (audioStep audio_path fs)
        with h | ⟨p0, hp0, h⟩
      · rw [h, h1dirs]
        exact Or.inl rfl
      · rw [h, h1dirs]
        exact Or.inr ⟨dirname p0, rfl⟩
  have h2nd : (segStep audio_path segs fs).dirs.Nodup := by
    rcases h2dirs with h | ⟨q, h⟩
    · rw [h]; exact hnd
    · rw [h]; exact hnd.erase q
  have hfinsub : ∀ x,
      x ∈ (cleanup_files noFail audio_path segs (some td) fs).files →
      x ∈ (segStep audio_path segs fs).files := by
    rw [hres]
    by_cases htd2 : td ∈ (segStep audio_path segs fs).dirs
    · rw [if_pos htd2]
      intro x hx
      exact (List.mem_filter.mp hx).1
    · rw [if_neg htd2]
      exact fun x hx => hx
  refine ⟨?_, ?_, ?_, ?_, cleanupSegLoop_noFail_ok segs,
    fun fail => cleanup_files_files_sublist fail audio_path segs (some td) fs⟩
  · exact fun p hp hc => h2segs p hp (hfinsub p hc)
  · exact fun a ha hc => h1audio a ha (h2sub a (hfinsub a hc))
  · rw [hres]
    by_cases htd2 : td ∈ (segStep audio_path segs fs).dirs
    · rw [if_pos htd2]
      exact (h2nd.filter _).not_mem_erase
    · rw [if_neg htd2]
      exact htd2
  · intro d hd htd0
    rw [hres]
    have htd1 : td ∈ (audioStep audio_path fs).dirs := by
      rw [h1dirs]; exact htd0
    by_cases hse : segs.isEmpty
    · have h2 : segStep audio_path segs fs = audioStep audio_path fs := by
        unfold segStep; rw [if_pos hse]
      rw [h2, if_pos htd1]
      intro hc
      have h3 := List.mem_of_mem_erase hc
      rw [List.mem_filter] at h3
      rw [hd] at h3
      exact absurd h3.2 (by simp)
    · have h2 : segStep audio_path segs fs
          = cleanup_segments noFail segs (audioStep audio_path fs) := by
        unfold segStep; rw [if_neg hse]
      rw [h2]
      have h1nd2 : (audioStep audio_path fs).dirs.Nodup := by
        rw [h1dirs]; exact hnd
      rcases cleanup_segments_td noFail segs (audioStep audio_path fs) td
          htd1 h1nd2 with h | ⟨hfl, hdr, hout⟩
      · rw [if_pos h]
        intro hc
        have h3 := List.mem_of_mem_erase hc
        rw [List.mem_filter] at h3
        rw [hd] at h3
        exact absurd h3.2 (by simp)
      · rw [if_neg hout]
        intro hc
        have hfalse := hdr d hc
        rw [hd] at hfalse
        exact absurd hfalse (by simp)

theorem cleanup_leaves_no_files_witness :
    ((FS.mk ["/tmp/tg_audio_7/audio_f1.ogg"] ["/tmp/tg_audio_7"]).dirs.Nodup
      ∧ (FS.mk ["/tmp/tg_audio_7/audio_f1.ogg"]
          ["/tmp/tg_audio_7"]).files.Nodup)
    ∧ (∀ p ∈ ["/tmp/tg_audio_7/audio_f1.ogg"],
        p ∉ (cleanup_files noFail (some "/tmp/tg_audio_7/audio_f1.ogg")
          ["/tmp/tg_audio_7/audio_f1.ogg"] (some "/tmp/tg_audio_7")
          (FS.mk ["/tmp/tg_audio_7/audio_f1.ogg"] ["/tmp/tg_audio_7"])).files)
    ∧ "/tmp/tg_audio_7"
        ∉ (cleanup_files noFail (some "/tmp/tg_audio_7/audio_f1.ogg")
          ["/tmp/tg_audio_7/audio_f1.ogg"] (some "/tmp/tg_audio_7")
          (FS.mk ["/tmp/tg_audio_7/audio_f1.ogg"] ["/tmp/tg_audio_7"])).dirs :=
  ⟨⟨by decide, by decide⟩,
    (cleanup_leaves_no_files
      (FS.mk ["/tmp/tg_audio_7/audio_f1.ogg"] ["/tmp/tg_audio_7"])
      (some "/tmp/tg_audio_7/audio_f1.ogg") "/tmp/tg_audio_7"
      ["/tmp/tg_audio_7/audio_f1.ogg"] (by decide) (by decide)).1,
    (cleanup_leaves_no_files
      (FS.mk ["/tmp/tg_audio_7/audio_f1.ogg"] ["/tmp/tg_audio_7"])
      (some "/tmp/tg_audio_7/audio_f1.ogg") "/tmp/tg_audio_7"
      ["/tmp/tg_audio_7/audio_f1.ogg"] (by decide) (by decide)).2.2.1⟩

end SpeechBot
